import Mathlib

/-! Shallow embedding of the render-command-queue engine of this repository:
the arena `RenderCmdQueue` from `include/RenderCmdQueue.h`, the helper
`PushString` and the `RenderQueue` double-buffered queue sets from
`include/RenderQueue.h` / `src/RenderQueue.cpp`, and the two-barrier frame
loop of the main translation unit.

Modelling conventions:

* `SizeType` (`uint32_t`) quantities are `Nat`.  The explicit integer
  conversions that truncate in the C++ source are modelled with an explicit
  remainder: `% 2 ^ 32` for `static_cast<SizeType>` and `% 256` for the
  `static_cast<uint8_t>` in `PushString`.
* The raw byte buffer `Data` is a total function `Nat → Cell β`.  A cell is
  either uninitialised memory, one byte of out-of-band data, the first byte
  of a record object (carrying the record's mutable `Size` field and the
  stored behaviour, of opaque type `β`), or an interior byte of a record
  object.  Stored behaviours are opaque values: `CallAll` returns the list
  of behaviours it invokes, in invocation order, and returns `none` when
  the traversal would reinterpret a non-record cell as a record header
  (undefined behaviour in the C++ source).
* A C++ `Ref` is a `SizeType` position whose sentinel `InvalidValue` means
  "unset".  The sentinel encoding of the `First`/`Last` members is modelled
  as `Option Nat`; the always-set refs returned by `OobPushEmpty`/`OobPush`
  are modelled as plain positions.
* The alignment constant `sizeof(size_t)` is 8, as on the 64-bit targets
  this C++20 sample supports.
-/

/-- One cell (byte) of the arena buffer. -/
inductive Cell (β : Type) where
  | uninit : Cell β
  | byte (b : Nat) : Cell β
  | header (size : Nat) (beh : β) : Cell β
  | payload : Cell β
deriving DecidableEq

namespace details

/-- Loop body of `details::NextPow2` (`result = 1; while (result <= n) result *= 2;`),
with explicit fuel so that the recursion is structural.  `n + 1` iterations always
suffice, because after `k` iterations the accumulator is `2 ^ k` and `n < 2 ^ (n + 1)`. -/
def NextPow2Go (n : Nat) : Nat → Nat → Nat
  | 0, result => result
  | fuel + 1, result => if result ≤ n then NextPow2Go n fuel (result * 2) else result

/-- `details::NextPow2`: smallest power of two strictly greater than `n`. -/
def NextPow2 (n : Nat) : Nat :=
  NextPow2Go n (n + 1) 1

/-- `details::RoundPow2`: `n` if it is a nonzero power of two, else `NextPow2 n`. -/
def RoundPow2 (n : Nat) : Nat :=
  if n = 0 ∨ n &&& (n - 1) ≠ 0 then NextPow2 n else n

/-- `details::RoundUpToMultipleOf` over unbounded naturals (the template body
`((a + b - 1) / b) * b`, with the `b == 0` escape hatch). -/
def RoundUpToMultipleOf (a b : Nat) : Nat :=
  if b = 0 then a else (a + b - 1) / b * b

/-- `details::RoundUpToMultipleOf` instantiated at `T = SizeType` (`uint32_t`):
the intermediate sum `a + b - 1` is computed modulo `2 ^ 32`. -/
def RoundUpToMultipleOfU32 (a b : Nat) : Nat :=
  if b = 0 then a else (a + b - 1) % 2 ^ 32 / b * b

end details

/-- `sizeof(size_t)` on the targets of this sample. -/
def sizeofSizeT : Nat := 8

/-- State of one `RenderCmdQueue`: the buffer and the header members. -/
structure RenderCmdQueue (β : Type) where
  Data : Nat → Cell β
  Capacity : Nat
  UsedCapacity : Nat
  NumElements : Nat
  First : Option Nat
  Last : Option Nat

namespace RenderCmdQueue

variable {β : Type}

/-- The constructor `RenderCmdQueue(uint32_t capacity)`: `malloc(capacity)`
yields uninitialised memory. -/
def init (capacity : Nat) : RenderCmdQueue β :=
  { Data := fun _ => Cell.uninit
    Capacity := capacity
    UsedCapacity := 0
    NumElements := 0
    First := none
    Last := none }

/-- `GetFreeCapacity()`: `Capacity - UsedCapacity` (never underflows while
the `UsedCapacity ≤ Capacity` invariant holds). -/
def GetFreeCapacity (q : RenderCmdQueue β) : Nat :=
  q.Capacity - q.UsedCapacity

/-- `Grow(requiredFreeCapacity)`: allocate a fresh buffer of capacity
`static_cast<SizeType>(RoundPow2(UsedCapacity + requiredFreeCapacity))`,
copy the used bytes verbatim, free the old buffer.  Bytes beyond
`UsedCapacity` in the new buffer are uninitialised.  The sum
`UsedCapacity + requiredFreeCapacity` is computed in `uint32_t` arithmetic
(wrapping modulo `2 ^ 32`) before being widened to the `size_t` parameter of
`RoundPow2`, and the explicit `static_cast<SizeType>` truncates the result
modulo `2 ^ 32` again — so a requirement whose sum lands in
`(2 ^ 31, 2 ^ 32]` really installs a tiny (0/1-byte) buffer. -/
def Grow (q : RenderCmdQueue β) (requiredFreeCapacity : Nat) : RenderCmdQueue β :=
  { q with
    Data := fun i => if i < q.UsedCapacity then q.Data i else Cell.uninit
    Capacity :=
      details.RoundPow2 ((q.UsedCapacity + requiredFreeCapacity) % 2 ^ 32) % 2 ^ 32 }

/-- Effect on the buffer of `new (Data + offset) Wrapper<T>(...)`: the first
cell records the `Size` field (initialised to `sizeof(Wrapper<T>)`) and the
stored behaviour; the remaining `size - 1` cells are interior bytes. -/
def writeRecord (d : Nat → Cell β) (offset size : Nat) (beh : β) : Nat → Cell β :=
  fun i =>
    if i = offset then Cell.header size beh
    else if offset < i ∧ i < offset + size then Cell.payload
    else d i

/-- `Push<T>(v)` with `needed = sizeof(Wrapper<T>)` and stored behaviour `beh`:
grow if the free capacity is insufficient, placement-new the wrapper at
`UsedCapacity`, bump `UsedCapacity` and `NumElements`, set `First` if unset,
and point `Last` at the new record. -/
def Push (q : RenderCmdQueue β) (needed : Nat) (beh : β) : RenderCmdQueue β :=
  let g := if q.GetFreeCapacity < needed then q.Grow needed else q
  { g with
    Data := writeRecord g.Data g.UsedCapacity needed beh
    UsedCapacity := g.UsedCapacity + needed
    NumElements := g.NumElements + 1
    First := if g.First.isSome then g.First else some g.UsedCapacity
    Last := some g.UsedCapacity }

/-- The `alignedNeededCapacity` computation of `OobPushEmpty<T>(count)`:
`RoundUpToMultipleOf(static_cast<SizeType>(count * sizeof(T)), sizeof(size_t))`,
in `SizeType` arithmetic. -/
def alignedNeededCapacity (sizeofT count : Nat) : Nat :=
  details.RoundUpToMultipleOfU32 (count * sizeofT % 2 ^ 32) sizeofSizeT

/-- Effect on the buffer of `At(Last).Size += amount`: the `Size` field of the
record header at `pos` is increased.  (If the cell at `pos` is not a record
header the C++ statement is undefined behaviour; the model leaves the cell
unchanged, and the reachable-state invariant shows the case never arises.) -/
def bumpSize (d : Nat → Cell β) (pos amount : Nat) : Nat → Cell β :=
  fun i =>
    if i = pos then
      match d pos with
      | Cell.header s b => Cell.header (s + amount) b
      | c => c
    else d i

/-- `OobPushEmpty<T>(count)`: reserve `alignedNeededCapacity` bytes at
`UsedCapacity` (growing first if needed), return the `Ref` position of the
reservation, and retroactively extend the `Size` of the record at `Last`
when `Last` is set. -/
def OobPushEmpty (q : RenderCmdQueue β) (sizeofT count : Nat) : RenderCmdQueue β × Nat :=
  let a := alignedNeededCapacity sizeofT count
  let g := if q.GetFreeCapacity < a then q.Grow a else q
  let res := g.UsedCapacity
  ({ g with
     UsedCapacity := g.UsedCapacity + a
     Data := match g.Last with
             | some lp => bumpSize g.Data lp a
             | none => g.Data }, res)

/-- Effect on the buffer of `memcpy(Data + pos, bytes, bytes.length)`. -/
def writeBytes (d : Nat → Cell β) (pos : Nat) (bytes : List Nat) : Nat → Cell β :=
  fun i =>
    if pos ≤ i ∧ i < pos + bytes.length then Cell.byte (bytes.getD (i - pos) 0)
    else d i

/-- `OobPush<T>(data, count)` instantiated at the one-byte element type
`uint8_t` used by this repository: reserve, then `memcpy` the bytes in. -/
def OobPush (q : RenderCmdQueue β) (bytes : List Nat) : RenderCmdQueue β × Nat :=
  let r := q.OobPushEmpty 1 bytes.length
  ({ r.1 with Data := writeBytes r.1.Data r.2 bytes }, r.2)

/-- `OobAt(ref)`: the pointer `Data + ref.Pos`, modelled as the function
reading the buffer at offset `pos + i`. -/
def OobAt (q : RenderCmdQueue β) (pos : Nat) : Nat → Cell β :=
  fun i => q.Data (pos + i)

/-- Loop body of `CallAll`: run `todo` records starting at `ptr`, reading each
record's `Size`, advancing by it and collecting the invoked behaviours in
order.  Reading a non-header cell as a record is undefined behaviour in the
source and yields `none` here. -/
def CallAllGo (d : Nat → Cell β) : Nat → Nat → Option (List β)
  | _, 0 => some []
  | ptr, todo + 1 =>
    match d ptr with
    | Cell.header s b => (CallAllGo d (ptr + s) todo).map (fun l => b :: l)
    | _ => none

/-- `CallAll()`: start at `First.Pos` when `First` is set (else at 0) and run
`NumElements` records. -/
def CallAll (q : RenderCmdQueue β) : Option (List β) :=
  CallAllGo q.Data (q.First.getD 0) q.NumElements

/-- `Clear()`: reset `UsedCapacity`, `NumElements`, `First` and `Last`;
the buffer and `Capacity` are untouched. -/
def Clear (q : RenderCmdQueue β) : RenderCmdQueue β :=
  { q with UsedCapacity := 0, NumElements := 0, First := none, Last := none }

end RenderCmdQueue

/-- The anonymous-namespace helper `PushString` of `src/RenderQueue.cpp`:
`OobPushEmpty<uint8_t>(static_cast<uint8_t>(str.size() + 1))` — note the
truncating cast of the count to `uint8_t` — followed by `memcpy` of the
string bytes and a written null terminator. -/
def PushString {β : Type} (q : RenderCmdQueue β) (str : List Nat) :
    RenderCmdQueue β × Nat :=
  let count := (str.length + 1) % 256
  let r := q.OobPushEmpty 1 count
  ({ r.1 with Data := RenderCmdQueue.writeBytes r.1.Data r.2 (str ++ [0]) }, r.2)

/-- A producer-side operation on one `RenderCmdQueue`: a `Push` of a record of
`needed = sizeof(Wrapper<T>)` bytes with stored behaviour `beh`, a bare
`OobPushEmpty<T>(count)` reservation, or an `OobPush` of byte data. -/
inductive QOp (β : Type) where
  | push (needed : Nat) (beh : β) : QOp β
  | oobE (sizeofT count : Nat) : QOp β
  | oobBytes (bytes : List Nat) : QOp β

/-- Apply one operation to a queue. -/
def stepOp {β : Type} (q : RenderCmdQueue β) : QOp β → RenderCmdQueue β
  | QOp.push needed beh => q.Push needed beh
  | QOp.oobE szT c => (q.OobPushEmpty szT c).1
  | QOp.oobBytes bs => (q.OobPush bs).1

/-- Apply a sequence of operations. -/
def runOps {β : Type} (q : RenderCmdQueue β) (ops : List (QOp β)) : RenderCmdQueue β :=
  ops.foldl stepOp q

/-- The behaviours of the records pushed by a sequence of operations,
in push order. -/
def pushedB {β : Type} : List (QOp β) → List β :=
  List.filterMap fun op =>
    match op with
    | QOp.push _ beh => some beh
    | _ => none

/-- Well-formedness of one operation: a C++ record has `sizeof(Wrapper<T>) ≥ 1`. -/
def QOpWF {β : Type} : QOp β → Prop
  | QOp.push needed _ => 0 < needed
  | _ => True

instance {β : Type} (op : QOp β) : Decidable (QOpWF op) := by
  cases op with
  | push needed beh => exact inferInstanceAs (Decidable (0 < needed))
  | oobE szT c => exact inferInstanceAs (Decidable True)
  | oobBytes bs => exact inferInstanceAs (Decidable True)

/-- Well-formedness of a sequence of operations. -/
def QOpsWF {β : Type} (ops : List (QOp β)) : Prop := ∀ op ∈ ops, QOpWF op

instance {β : Type} (ops : List (QOp β)) : Decidable (QOpsWF ops) :=
  inferInstanceAs (Decidable (∀ op ∈ ops, QOpWF op))

/-- `Walk d p n bs e`: starting at offset `p`, the buffer `d` contains `n`
back-to-back records (each self-declaring a positive total size) whose
behaviours are `bs` in order, ending exactly at offset `e`. -/
inductive Walk {β : Type} (d : Nat → Cell β) : Nat → Nat → List β → Nat → Prop where
  | nil (p : Nat) : Walk d p 0 [] p
  | cons {p s n e : Nat} {b : β} {bs : List β} :
      d p = Cell.header s b → 0 < s → Walk d (p + s) n bs e →
      Walk d p (n + 1) (b :: bs) e

/-- Reachable-state traversal invariant of a `RenderCmdQueue` holding the
pushed behaviours `behs`: either the queue holds no records
(`First`/`Last` unset) or `First`/`Last` delimit a packed chain of records
ending exactly at `UsedCapacity`, with the record at `Last` covering
everything up to `UsedCapacity` (including its out-of-band tail). -/
def QueueInv {β : Type} (q : RenderCmdQueue β) (behs : List β) : Prop :=
  (q.NumElements = 0 ∧ behs = [] ∧ q.First = none ∧ q.Last = none) ∨
  (∃ fp lp bs s b,
     q.First = some fp ∧ q.Last = some lp ∧ behs = bs ++ [b] ∧
     0 < q.NumElements ∧ Walk q.Data fp (q.NumElements - 1) bs lp ∧
     q.Data lp = Cell.header s b ∧ 0 < s ∧ lp + s = q.UsedCapacity)

/-- One `QueueSet` of `RenderQueue`: a queue per `RenderGroup` ordering
domain (`World` then `UI`). -/
structure QueueSet (β : Type) where
  World : RenderCmdQueue β
  UI : RenderCmdQueue β

/-- The behaviours executed by `RenderQueue::Render()` on a set: `CallAll` of
the `World` queue followed by `CallAll` of the `UI` queue. -/
def QueueSet.RenderExec {β : Type} (s : QueueSet β) : Option (List β) :=
  match s.World.CallAll, s.UI.CallAll with
  | some w, some u => some (w ++ u)
  | _, _ => none

/-- The state `RenderQueue::Render()` leaves behind: both queues cleared. -/
def QueueSet.RenderClear {β : Type} (s : QueueSet β) : QueueSet β :=
  ⟨s.World.Clear, s.UI.Clear⟩

/-- The two working sets of `RenderQueue`, by role: `LogicSet` receives
pushes, `RenderSet` is drained by the raylib thread. -/
structure RenderQueueState (β : Type) where
  LogicSet : QueueSet β
  RenderSet : QueueSet β

/-- `SwapQueues()`: exchange the two role pointers. -/
def RenderQueueState.SwapQueues {β : Type} (d : RenderQueueState β) : RenderQueueState β :=
  ⟨d.RenderSet, d.LogicSet⟩

/-- The freshly constructed `RenderQueue`: all four queues default-constructed
with capacity 0. -/
def initRenderQueue {β : Type} : RenderQueueState β :=
  ⟨⟨RenderCmdQueue.init 0, RenderCmdQueue.init 0⟩,
   ⟨RenderCmdQueue.init 0, RenderCmdQueue.init 0⟩⟩

/-- The pushes the producer-role threads issue during one frame, per
ordering domain. -/
structure FrameOps (β : Type) where
  World : List (QOp β)
  UI : List (QOp β)

/-- One frame of the two-barrier protocol, as serialised by the barriers of
`FrameThreadControl`: during the tick phase the logic thread pushes into the
producer set while the main thread executes and clears the consumer set
(disjoint state, so the phase order within the frame is immaterial); at the
frame boundary, strictly after the frame-end rendezvous, the coordinator
calls `SwapQueues`.  Returns the next state and the behaviours executed this
frame. -/
def frame {β : Type} (db : RenderQueueState β) (f : FrameOps β) :
    RenderQueueState β × Option (List β) :=
  let exec := db.RenderSet.RenderExec
  let newLogic : QueueSet β := ⟨runOps db.LogicSet.World f.World, runOps db.LogicSet.UI f.UI⟩
  (RenderQueueState.SwapQueues ⟨newLogic, db.RenderSet.RenderClear⟩, exec)

/-- Run the main loop for a list of frames, collecting the behaviours
executed in each frame. -/
def runFrames {β : Type} (db : RenderQueueState β) :
    List (FrameOps β) → RenderQueueState β × List (Option (List β))
  | [] => (db, [])
  | f :: rest =>
    let x := frame db f
    let y := runFrames x.1 rest
    (y.1, x.2 :: y.2)

/-- Specification of the executed batches: with the consumer set holding
`bw`/`bu`, frame 1 executes exactly those, and each later frame executes
exactly what the previous frame pushed. -/
def execSpec {β : Type} : List β → List β → List (FrameOps β) → List (Option (List β))
  | _, _, [] => []
  | bw, bu, f :: rest =>
    some (bw ++ bu) :: execSpec (pushedB f.World) (pushedB f.UI) rest

/-- Well-formedness of the per-frame pushes. -/
def FramesWF {β : Type} (fs : List (FrameOps β)) : Prop :=
  ∀ f ∈ fs, QOpsWF f.World ∧ QOpsWF f.UI

instance {β : Type} (fs : List (FrameOps β)) : Decidable (FramesWF fs) :=
  inferInstanceAs (Decidable (∀ f ∈ fs, QOpsWF f.World ∧ QOpsWF f.UI))

/-- The `RenderQueue` static `Instance` pointer together with the assertion
state: `InstanceSet` records whether `Instance` is non-null, `AssertFailed`
whether an `assert` in the constructor or in `Get` has fired. -/
structure RenderQueueGlobal where
  InstanceSet : Bool
  AssertFailed : Bool
deriving DecidableEq

/-- The two operations touching the `Instance` pointer. -/
inductive RQEvent where
  | construct
  | get
deriving DecidableEq

/-- `RenderQueue()` runs `assert(!Instance)` then sets `Instance = this`;
`Get()` runs `assert(Instance)`. -/
def stepRQ (s : RenderQueueGlobal) : RQEvent → RenderQueueGlobal
  | RQEvent.construct => { InstanceSet := true, AssertFailed := s.AssertFailed || s.InstanceSet }
  | RQEvent.get => { s with AssertFailed := s.AssertFailed || !s.InstanceSet }

/-- Run a sequence of constructor/`Get` events from process start
(`Instance = nullptr`, no assertion fired). -/
def runRQ (evs : List RQEvent) : RenderQueueGlobal :=
  evs.foldl stepRQ { InstanceSet := false, AssertFailed := false }

/-- Number of `RenderQueue` constructions in an event sequence. -/
def countConstruct (evs : List RQEvent) : Nat :=
  (evs.filter fun e => e = RQEvent.construct).length

/-! Auxiliary lemmas about the arithmetic helpers. -/

theorem RoundUpToMultipleOf_ge (a : Nat) : a ≤ details.RoundUpToMultipleOf a 8 := by
  unfold details.RoundUpToMultipleOf
  rw [if_neg (by norm_num)]
  have hm : (a + 8 - 1) % 8 < 8 := Nat.mod_lt _ (by norm_num)
  have hd := Nat.div_add_mod (a + 8 - 1) 8
  omega

/-- The truncating `SizeType` instantiation agrees with the unbounded round-up
whenever the intermediate sum fits in 32 bits. -/
theorem RoundUpToMultipleOfU32_eq (a : Nat) (h : a + 7 < 2 ^ 32) :
    details.RoundUpToMultipleOfU32 a 8 = details.RoundUpToMultipleOf a 8 := by
  unfold details.RoundUpToMultipleOfU32 details.RoundUpToMultipleOf
  rw [if_neg (by norm_num), if_neg (by norm_num)]
  have : (a + 8 - 1) % 2 ^ 32 = a + 8 - 1 := Nat.mod_eq_of_lt (by omega)
  rw [this]

theorem alignedNeededCapacity_ge (len : Nat) (h : len + 7 < 2 ^ 32) :
    len ≤ RenderCmdQueue.alignedNeededCapacity 1 len := by
  unfold RenderCmdQueue.alignedNeededCapacity sizeofSizeT
  have h1 : len * 1 % 2 ^ 32 = len := by
    rw [Nat.mul_one]
    exact Nat.mod_eq_of_lt (by omega)
  rw [h1, RoundUpToMultipleOfU32_eq len h]
  exact RoundUpToMultipleOf_ge len

/-! Auxiliary lemmas about `Walk`. -/

theorem walk_le {β : Type} {d : Nat → Cell β} {p n e : Nat} {bs : List β}
    (h : Walk d p n bs e) : p ≤ e := by
  induction h with
  | nil p => exact le_rfl
  | cons hd hs hw ih => omega

theorem walk_congr {β : Type} {d d2 : Nat → Cell β} {p n e : Nat} {bs : List β}
    (h : Walk d p n bs e) (hag : ∀ i, p ≤ i → i < e → d2 i = d i) :
    Walk d2 p n bs e := by
  induction h with
  | nil p => exact Walk.nil p
  | @cons p s n e b bs hd hs hw ih =>
    have hpe : p < e := lt_of_lt_of_le (by omega) (walk_le hw)
    refine Walk.cons ?_ hs (ih ?_)
    · rw [hag p le_rfl hpe, hd]
    · intro i h1 h2
      exact hag i (by omega) h2

theorem walk_append {β : Type} {d : Nat → Cell β} {p n e s : Nat} {bs : List β} {b : β}
    (h : Walk d p n bs e) (hd : d e = Cell.header s b) (hs : 0 < s) :
    Walk d p (n + 1) (bs ++ [b]) (e + s) := by
  induction h with
  | nil p => exact Walk.cons hd hs (Walk.nil _)
  | cons hd2 hs2 hw ih => exact Walk.cons hd2 hs2 (ih hd)

theorem walk_callAllGo {β : Type} {d : Nat → Cell β} {p n e : Nat} {bs : List β}
    (h : Walk d p n bs e) : RenderCmdQueue.CallAllGo d p n = some bs := by
  induction h with
  | nil p => rfl
  | @cons p s n e b bs hd hs hw ih =>
    simp [RenderCmdQueue.CallAllGo, hd, ih]

/-! Field and buffer lemmas for the queue operations. -/

namespace RenderCmdQueue

theorem grow_data_lt {β : Type} (q : RenderCmdQueue β) (req i : Nat)
    (hi : i < q.UsedCapacity) : (q.Grow req).Data i = q.Data i := by
  simp [Grow, hi]

theorem ensure_used {β : Type} (q : RenderCmdQueue β) (need : Nat) :
    (if q.GetFreeCapacity < need then q.Grow need else q).UsedCapacity = q.UsedCapacity := by
  split <;> rfl

theorem ensure_first {β : Type} (q : RenderCmdQueue β) (need : Nat) :
    (if q.GetFreeCapacity < need then q.Grow need else q).First = q.First := by
  split <;> rfl

theorem ensure_last {β : Type} (q : RenderCmdQueue β) (need : Nat) :
    (if q.GetFreeCapacity < need then q.Grow need else q).Last = q.Last := by
  split <;> rfl

theorem ensure_numel {β : Type} (q : RenderCmdQueue β) (need : Nat) :
    (if q.GetFreeCapacity < need then q.Grow need else q).NumElements = q.NumElements := by
  split <;> rfl

theorem ensure_data {β : Type} (q : RenderCmdQueue β) (need i : Nat)
    (hi : i < q.UsedCapacity) :
    (if q.GetFreeCapacity < need then q.Grow need else q).Data i = q.Data i := by
  split
  · exact grow_data_lt q need i hi
  · rfl

theorem writeRecord_lt {β : Type} (d : Nat → Cell β) (offset size i : Nat) (beh : β)
    (hi : i < offset) : writeRecord d offset size beh i = d i := by
  unfold writeRecord
  rw [if_neg (by omega), if_neg (by omega)]

theorem writeRecord_at {β : Type} (d : Nat → Cell β) (offset size : Nat) (beh : β) :
    writeRecord d offset size beh offset = Cell.header size beh := by
  unfold writeRecord
  rw [if_pos rfl]

theorem bumpSize_ne {β : Type} (d : Nat → Cell β) (pos amount i : Nat)
    (hi : i ≠ pos) : bumpSize d pos amount i = d i := by
  unfold bumpSize
  rw [if_neg hi]

theorem writeBytes_lt {β : Type} (d : Nat → Cell β) (pos i : Nat) (bytes : List Nat)
    (hi : i < pos) : writeBytes d pos bytes i = d i := by
  unfold writeBytes
  rw [if_neg (by omega)]

theorem writeBytes_in {β : Type} (d : Nat → Cell β) (pos k : Nat) (bytes : List Nat)
    (hk : k < bytes.length) :
    writeBytes d pos bytes (pos + k) = Cell.byte (bytes.getD k 0) := by
  unfold writeBytes
  rw [if_pos (by omega)]
  have hk2 : pos + k - pos = k := by omega
  rw [hk2]

theorem Push_used {β : Type} (q : RenderCmdQueue β) (needed : Nat) (beh : β) :
    (q.Push needed beh).UsedCapacity = q.UsedCapacity + needed := by
  show (if q.GetFreeCapacity < needed then q.Grow needed else q).UsedCapacity + needed
    = q.UsedCapacity + needed
  rw [ensure_used]

theorem Push_numel {β : Type} (q : RenderCmdQueue β) (needed : Nat) (beh : β) :
    (q.Push needed beh).NumElements = q.NumElements + 1 := by
  show (if q.GetFreeCapacity < needed then q.Grow needed else q).NumElements + 1
    = q.NumElements + 1
  rw [ensure_numel]

theorem Push_first {β : Type} (q : RenderCmdQueue β) (needed : Nat) (beh : β) :
    (q.Push needed beh).First = if q.First.isSome then q.First else some q.UsedCapacity := by
  show (if (if q.GetFreeCapacity < needed then q.Grow needed else q).First.isSome = true
      then (if q.GetFreeCapacity < needed then q.Grow needed else q).First
      else some (if q.GetFreeCapacity < needed then q.Grow needed else q).UsedCapacity)
    = if q.First.isSome = true then q.First else some q.UsedCapacity
  rw [ensure_first, ensure_used]

theorem Push_last {β : Type} (q : RenderCmdQueue β) (needed : Nat) (beh : β) :
    (q.Push needed beh).Last = some q.UsedCapacity := by
  show some (if q.GetFreeCapacity < needed then q.Grow needed else q).UsedCapacity
    = some q.UsedCapacity
  rw [ensure_used]

theorem Push_data_lt {β : Type} (q : RenderCmdQueue β) (needed i : Nat) (beh : β)
    (hi : i < q.UsedCapacity) : (q.Push needed beh).Data i = q.Data i := by
  unfold Push
  show writeRecord _ (if q.GetFreeCapacity < needed then q.Grow needed else q).UsedCapacity
    needed beh i = q.Data i
  rw [ensure_used, writeRecord_lt _ _ _ _ _ hi, ensure_data _ _ _ hi]

theorem Push_data_at {β : Type} (q : RenderCmdQueue β) (needed : Nat) (beh : β) :
    (q.Push needed beh).Data q.UsedCapacity = Cell.header needed beh := by
  unfold Push
  show writeRecord _ (if q.GetFreeCapacity < needed then q.Grow needed else q).UsedCapacity
    needed beh q.UsedCapacity = Cell.header needed beh
  rw [ensure_used, writeRecord_at]

theorem OobPushEmpty_snd {β : Type} (q : RenderCmdQueue β) (szT c : Nat) :
    (q.OobPushEmpty szT c).2 = q.UsedCapacity := by
  unfold OobPushEmpty
  exact ensure_used q _

theorem OobPushEmpty_used {β : Type} (q : RenderCmdQueue β) (szT c : Nat) :
    (q.OobPushEmpty szT c).1.UsedCapacity
      = q.UsedCapacity + alignedNeededCapacity szT c := by
  unfold OobPushEmpty
  show (if q.GetFreeCapacity < alignedNeededCapacity szT c then
      q.Grow (alignedNeededCapacity szT c) else q).UsedCapacity + _ = _
  rw [ensure_used]

theorem OobPushEmpty_first {β : Type} (q : RenderCmdQueue β) (szT c : Nat) :
    (q.OobPushEmpty szT c).1.First = q.First := by
  unfold OobPushEmpty
  exact ensure_first q _

theorem OobPushEmpty_last {β : Type} (q : RenderCmdQueue β) (szT c : Nat) :
    (q.OobPushEmpty szT c).1.Last = q.Last := by
  unfold OobPushEmpty
  exact ensure_last q _

theorem OobPushEmpty_numel {β : Type} (q : RenderCmdQueue β) (szT c : Nat) :
    (q.OobPushEmpty szT c).1.NumElements = q.NumElements := by
  unfold OobPushEmpty
  exact ensure_numel q _

theorem OobPushEmpty_data {β : Type} (q : RenderCmdQueue β) (szT c : Nat) :
    (q.OobPushEmpty szT c).1.Data
      = match q.Last with
        | some lp =>
          bumpSize (if q.GetFreeCapacity < alignedNeededCapacity szT c then
            q.Grow (alignedNeededCapacity szT c) else q).Data lp (alignedNeededCapacity szT c)
        | none =>
          (if q.GetFreeCapacity < alignedNeededCapacity szT c then
            q.Grow (alignedNeededCapacity szT c) else q).Data := by
  show (match (if q.GetFreeCapacity < alignedNeededCapacity szT c then
        q.Grow (alignedNeededCapacity szT c) else q).Last with
      | some lp =>
        bumpSize (if q.GetFreeCapacity < alignedNeededCapacity szT c then
          q.Grow (alignedNeededCapacity szT c) else q).Data lp (alignedNeededCapacity szT c)
      | none =>
        (if q.GetFreeCapacity < alignedNeededCapacity szT c then
          q.Grow (alignedNeededCapacity szT c) else q).Data) = _
  rw [ensure_last]

end RenderCmdQueue

/-! Preservation of the reachable-state invariant by each operation. -/

namespace RenderCmdQueue

theorem bumpSize_at {β : Type} (d : Nat → Cell β) (pos amount s : Nat) (b : β)
    (hd : d pos = Cell.header s b) :
    bumpSize d pos amount pos = Cell.header (s + amount) b := by
  unfold bumpSize
  rw [if_pos rfl, hd]

theorem OobPush_used {β : Type} (q : RenderCmdQueue β) (bytes : List Nat) :
    (q.OobPush bytes).1.UsedCapacity
      = q.UsedCapacity + alignedNeededCapacity 1 bytes.length := by
  show (q.OobPushEmpty 1 bytes.length).1.UsedCapacity = _
  exact OobPushEmpty_used q 1 bytes.length

theorem OobPush_first {β : Type} (q : RenderCmdQueue β) (bytes : List Nat) :
    (q.OobPush bytes).1.First = q.First := by
  show (q.OobPushEmpty 1 bytes.length).1.First = _
  exact OobPushEmpty_first q 1 bytes.length

theorem OobPush_last {β : Type} (q : RenderCmdQueue β) (bytes : List Nat) :
    (q.OobPush bytes).1.Last = q.Last := by
  show (q.OobPushEmpty 1 bytes.length).1.Last = _
  exact OobPushEmpty_last q 1 bytes.length

theorem OobPush_numel {β : Type} (q : RenderCmdQueue β) (bytes : List Nat) :
    (q.OobPush bytes).1.NumElements = q.NumElements := by
  show (q.OobPushEmpty 1 bytes.length).1.NumElements = _
  exact OobPushEmpty_numel q 1 bytes.length

theorem OobPush_snd {β : Type} (q : RenderCmdQueue β) (bytes : List Nat) :
    (q.OobPush bytes).2 = q.UsedCapacity := by
  show (q.OobPushEmpty 1 bytes.length).2 = _
  exact OobPushEmpty_snd q 1 bytes.length

theorem OobPush_data {β : Type} (q : RenderCmdQueue β) (bytes : List Nat) :
    (q.OobPush bytes).1.Data
      = writeBytes (q.OobPushEmpty 1 bytes.length).1.Data q.UsedCapacity bytes := by
  show writeBytes (q.OobPushEmpty 1 bytes.length).1.Data (q.OobPushEmpty 1 bytes.length).2 bytes
    = _
  rw [OobPushEmpty_snd]

theorem QueueInv_push {β : Type} (q : RenderCmdQueue β) (behs : List β) (needed : Nat)
    (beh : β) (hn : 0 < needed) (h : QueueInv q behs) :
    QueueInv (q.Push needed beh) (behs ++ [beh]) := by
  refine Or.inr ?_
  rcases h with ⟨h0, hbehs, hf, hl⟩ |
      ⟨fp, lp, bs, s, bl, hf, hl, hbehs, hn0, hwalk, hhdr, hs, hend⟩
  · refine ⟨q.UsedCapacity, q.UsedCapacity, [], needed, beh, ?_, ?_, ?_, ?_, ?_, ?_, hn, ?_⟩
    · rw [Push_first, hf]; rfl
    · rw [Push_last]
    · rw [hbehs]
    · rw [Push_numel]; omega
    · rw [Push_numel, h0]
      exact Walk.nil _
    · exact Push_data_at q needed beh
    · rw [Push_used]
  · refine ⟨fp, q.UsedCapacity, bs ++ [bl], needed, beh, ?_, ?_, ?_, ?_, ?_, ?_, hn, ?_⟩
    · rw [Push_first, hf]; rfl
    · exact Push_last q needed beh
    · rw [hbehs]
    · rw [Push_numel]; omega
    · rw [Push_numel]
      have hw2 : Walk q.Data fp (q.NumElements - 1 + 1) (bs ++ [bl]) (lp + s) :=
        walk_append hwalk hhdr hs
      rw [show q.NumElements - 1 + 1 = q.NumElements from by omega, hend] at hw2
      have hw3 := walk_congr hw2
        (fun i h1 h2 => Push_data_lt q needed i beh h2)
      rw [show q.NumElements + 1 - 1 = q.NumElements from by omega]
      exact hw3
    · exact Push_data_at q needed beh
    · rw [Push_used]

theorem QueueInv_oobE {β : Type} (q : RenderCmdQueue β) (behs : List β) (szT c : Nat)
    (h : QueueInv q behs) : QueueInv (q.OobPushEmpty szT c).1 behs := by
  rcases h with ⟨h0, hbehs, hf, hl⟩ |
      ⟨fp, lp, bs, s, bl, hf, hl, hbehs, hn0, hwalk, hhdr, hs, hend⟩
  · exact Or.inl ⟨by rw [OobPushEmpty_numel]; exact h0, hbehs,
      by rw [OobPushEmpty_first]; exact hf, by rw [OobPushEmpty_last]; exact hl⟩
  · have hlp_lt : lp < q.UsedCapacity := by omega
    have hdata : (q.OobPushEmpty szT c).1.Data
        = bumpSize (if q.GetFreeCapacity < alignedNeededCapacity szT c then
            q.Grow (alignedNeededCapacity szT c) else q).Data lp
            (alignedNeededCapacity szT c) := by
      rw [OobPushEmpty_data, hl]
    refine Or.inr ⟨fp, lp, bs, s + alignedNeededCapacity szT c, bl, ?_, ?_, hbehs, ?_, ?_, ?_,
      by omega, ?_⟩
    · rw [OobPushEmpty_first]; exact hf
    · rw [OobPushEmpty_last]; exact hl
    · rw [OobPushEmpty_numel]; exact hn0
    · rw [OobPushEmpty_numel]
      apply walk_congr hwalk
      intro i h1 h2
      rw [hdata, bumpSize_ne _ _ _ _ (by omega), ensure_data _ _ _ (by omega)]
    · rw [hdata]
      have he : (if q.GetFreeCapacity < alignedNeededCapacity szT c then
          q.Grow (alignedNeededCapacity szT c) else q).Data lp = Cell.header s bl := by
        rw [ensure_data _ _ _ hlp_lt]; exact hhdr
      exact bumpSize_at _ _ _ _ _ he
    · rw [OobPushEmpty_used]; omega

theorem QueueInv_oobPush {β : Type} (q : RenderCmdQueue β) (behs : List β) (bytes : List Nat)
    (h : QueueInv q behs) : QueueInv (q.OobPush bytes).1 behs := by
  rcases h with ⟨h0, hbehs, hf, hl⟩ |
      ⟨fp, lp, bs, s, bl, hf, hl, hbehs, hn0, hwalk, hhdr, hs, hend⟩
  · exact Or.inl ⟨by rw [OobPush_numel]; exact h0, hbehs,
      by rw [OobPush_first]; exact hf, by rw [OobPush_last]; exact hl⟩
  · have hlp_lt : lp < q.UsedCapacity := by omega
    have hdataE : (q.OobPushEmpty 1 bytes.length).1.Data
        = bumpSize (if q.GetFreeCapacity < alignedNeededCapacity 1 bytes.length then
            q.Grow (alignedNeededCapacity 1 bytes.length) else q).Data lp
            (alignedNeededCapacity 1 bytes.length) := by
      rw [OobPushEmpty_data, hl]
    refine Or.inr ⟨fp, lp, bs, s + alignedNeededCapacity 1 bytes.length, bl, ?_, ?_, hbehs,
      ?_, ?_, ?_, by omega, ?_⟩
    · rw [OobPush_first]; exact hf
    · rw [OobPush_last]; exact hl
    · rw [OobPush_numel]; exact hn0
    · rw [OobPush_numel]
      apply walk_congr hwalk
      intro i h1 h2
      rw [OobPush_data, writeBytes_lt _ _ _ _ (by omega), hdataE,
        bumpSize_ne _ _ _ _ (by omega), ensure_data _ _ _ (by omega)]
    · rw [OobPush_data, writeBytes_lt _ _ _ _ hlp_lt, hdataE]
      have he : (if q.GetFreeCapacity < alignedNeededCapacity 1 bytes.length then
          q.Grow (alignedNeededCapacity 1 bytes.length) else q).Data lp
          = Cell.header s bl := by
        rw [ensure_data _ _ _ hlp_lt]; exact hhdr
      exact bumpSize_at _ _ _ _ _ he
    · rw [OobPush_used]; omega

end RenderCmdQueue

theorem QueueInv_step {β : Type} (q : RenderCmdQueue β) (behs : List β) (op : QOp β)
    (hop : QOpWF op) (h : QueueInv q behs) :
    QueueInv (stepOp q op) (behs ++ pushedB [op]) := by
  cases op with
  | push needed beh =>
    show QueueInv (q.Push needed beh) (behs ++ [beh])
    exact RenderCmdQueue.QueueInv_push q behs needed beh hop h
  | oobE szT c =>
    show QueueInv (q.OobPushEmpty szT c).1 (behs ++ [])
    rw [List.append_nil]
    exact RenderCmdQueue.QueueInv_oobE q behs szT c h
  | oobBytes bytes =>
    show QueueInv (q.OobPush bytes).1 (behs ++ [])
    rw [List.append_nil]
    exact RenderCmdQueue.QueueInv_oobPush q behs bytes h

theorem QueueInv_run {β : Type} :
    ∀ (ops : List (QOp β)) (q : RenderCmdQueue β) (behs : List β),
      QueueInv q behs → QOpsWF ops → QueueInv (runOps q ops) (behs ++ pushedB ops) := by
  intro ops
  induction ops with
  | nil =>
    intro q behs h _
    simpa [runOps, pushedB] using h
  | cons op rest ih =>
    intro q behs h hwf
    have hop : QOpWF op := hwf op (List.mem_cons_self op rest)
    have hrest : QOpsWF rest := fun o ho => hwf o (List.mem_cons_of_mem op ho)
    have h2 := ih (stepOp q op) _ (QueueInv_step q behs op hop h) hrest
    show QueueInv (runOps (stepOp q op) rest) (behs ++ pushedB (op :: rest))
    have hp : pushedB (op :: rest) = pushedB [op] ++ pushedB rest := by
      cases op <;> simp [pushedB]
    rw [hp, ← List.append_assoc]
    exact h2

theorem CallAll_of_inv {β : Type} (q : RenderCmdQueue β) (behs : List β)
    (h : QueueInv q behs) : q.CallAll = some behs := by
  rcases h with ⟨h0, hbehs, hf, hl⟩ |
    ⟨fp, lp, bs, s, bl, hf, hl, hbehs, hn0, hwalk, hhdr, hs, hend⟩
  · unfold RenderCmdQueue.CallAll
    rw [h0, hbehs]
    rfl
  · unfold RenderCmdQueue.CallAll
    rw [hf, hbehs]
    have hw2 := walk_append hwalk hhdr hs
    rw [show q.NumElements - 1 + 1 = q.NumElements from by omega, hend] at hw2
    simpa using walk_callAllGo hw2

theorem QueueInv_init {β : Type} (cap : Nat) :
    QueueInv (RenderCmdQueue.init cap : RenderCmdQueue β) [] :=
  Or.inl ⟨rfl, rfl, rfl, rfl⟩

theorem QueueInv_clear {β : Type} (q : RenderCmdQueue β) : QueueInv q.Clear [] :=
  Or.inl ⟨rfl, rfl, rfl, rfl⟩

/-! Locality: cells strictly below the used region, other than the header at
`Last`, are never changed by any later operation. -/

theorem OobPushEmpty_data_low {β : Type} (q : RenderCmdQueue β) (szT c i : Nat)
    (hi : i < q.UsedCapacity) (hl : ∀ lp, q.Last = some lp → lp ≠ i) :
    (q.OobPushEmpty szT c).1.Data i = q.Data i := by
  rw [RenderCmdQueue.OobPushEmpty_data]
  cases hql : q.Last with
  | none =>
    exact RenderCmdQueue.ensure_data _ _ _ hi
  | some lp =>
    show RenderCmdQueue.bumpSize (if q.GetFreeCapacity < RenderCmdQueue.alignedNeededCapacity szT c
        then q.Grow (RenderCmdQueue.alignedNeededCapacity szT c) else q).Data lp
        (RenderCmdQueue.alignedNeededCapacity szT c) i = q.Data i
    rw [RenderCmdQueue.bumpSize_ne _ _ _ _ (Ne.symm (hl lp hql))]
    exact RenderCmdQueue.ensure_data _ _ _ hi

theorem stepOp_low {β : Type} (q : RenderCmdQueue β) (op : QOp β) (i : Nat)
    (hi : i < q.UsedCapacity) (hl : ∀ lp, q.Last = some lp → lp ≠ i) :
    (stepOp q op).Data i = q.Data i ∧ i < (stepOp q op).UsedCapacity ∧
      (∀ lp, (stepOp q op).Last = some lp → lp ≠ i) := by
  cases op with
  | push needed beh =>
    show (q.Push needed beh).Data i = q.Data i ∧ i < (q.Push needed beh).UsedCapacity ∧
      (∀ lp, (q.Push needed beh).Last = some lp → lp ≠ i)
    refine ⟨RenderCmdQueue.Push_data_lt q needed i beh hi, ?_, ?_⟩
    · rw [RenderCmdQueue.Push_used]; omega
    · intro lp hlp
      rw [RenderCmdQueue.Push_last] at hlp
      injection hlp with h2
      omega
  | oobE szT c =>
    show (q.OobPushEmpty szT c).1.Data i = q.Data i ∧ i < (q.OobPushEmpty szT c).1.UsedCapacity ∧
      (∀ lp, (q.OobPushEmpty szT c).1.Last = some lp → lp ≠ i)
    refine ⟨OobPushEmpty_data_low q szT c i hi hl, ?_, ?_⟩
    · rw [RenderCmdQueue.OobPushEmpty_used]; omega
    · intro lp hlp
      rw [RenderCmdQueue.OobPushEmpty_last] at hlp
      exact hl lp hlp
  | oobBytes bytes =>
    show (q.OobPush bytes).1.Data i = q.Data i ∧ i < (q.OobPush bytes).1.UsedCapacity ∧
      (∀ lp, (q.OobPush bytes).1.Last = some lp → lp ≠ i)
    refine ⟨?_, ?_, ?_⟩
    · rw [RenderCmdQueue.OobPush_data, RenderCmdQueue.writeBytes_lt _ _ _ _ hi]
      exact OobPushEmpty_data_low q 1 bytes.length i hi hl
    · rw [RenderCmdQueue.OobPush_used]; omega
    · intro lp hlp
      rw [RenderCmdQueue.OobPush_last] at hlp
      exact hl lp hlp

theorem runOps_low {β : Type} :
    ∀ (ops : List (QOp β)) (q : RenderCmdQueue β) (i : Nat),
      i < q.UsedCapacity → (∀ lp, q.Last = some lp → lp ≠ i) →
      (runOps q ops).Data i = q.Data i := by
  intro ops
  induction ops with
  | nil => intro q i _ _; rfl
  | cons op rest ih =>
    intro q i h1 h2
    obtain ⟨hd, hu, hl2⟩ := stepOp_low q op i h1 h2
    show (runOps (stepOp q op) rest).Data i = q.Data i
    rw [ih (stepOp q op) i hu hl2, hd]

theorem runOps_append {β : Type} (q : RenderCmdQueue β) (l1 l2 : List (QOp β)) :
    runOps q (l1 ++ l2) = runOps (runOps q l1) l2 := by
  unfold runOps
  exact List.foldl_append _ _ _ _

theorem pushedB_append {β : Type} (l1 l2 : List (QOp β)) :
    pushedB (l1 ++ l2) = pushedB l1 ++ pushedB l2 := by
  unfold pushedB
  exact List.filterMap_append _ _ _

theorem range_map_getD {β : Type} (bytes : List Nat) :
    (List.range bytes.length).map (fun k => (Cell.byte (bytes.getD k 0) : Cell β))
      = bytes.map Cell.byte := by
  induction bytes with
  | nil => rfl
  | cons hd tl ih =>
    rw [List.length_cons, List.range_succ_eq_map, List.map_cons, List.map_map]
    congr 1

/-! The frame loop: each frame executes exactly what the previous frame
pushed into the producer set. -/

theorem runFrames_exec {β : Type} :
    ∀ (fs : List (FrameOps β)) (db : RenderQueueState β) (bw bu : List β),
      QueueInv db.RenderSet.World bw → QueueInv db.RenderSet.UI bu →
      QueueInv db.LogicSet.World [] → QueueInv db.LogicSet.UI [] →
      FramesWF fs → (runFrames db fs).2 = execSpec bw bu fs := by
  intro fs
  induction fs with
  | nil => intro db bw bu _ _ _ _ _; rfl
  | cons f rest ih =>
    intro db bw bu hw hu hlw hlu hWF
    have hfWF : QOpsWF f.World ∧ QOpsWF f.UI := hWF f (List.mem_cons_self f rest)
    have hrestWF : FramesWF rest := fun g hg => hWF g (List.mem_cons_of_mem f hg)
    have hexec : (frame db f).2 = some (bw ++ bu) := by
      show db.RenderSet.RenderExec = some (bw ++ bu)
      unfold QueueSet.RenderExec
      rw [CallAll_of_inv _ _ hw, CallAll_of_inv _ _ hu]
    show (frame db f).2 :: (runFrames (frame db f).1 rest).2
      = some (bw ++ bu) :: execSpec (pushedB f.World) (pushedB f.UI) rest
    rw [hexec]
    congr 1
    apply ih
    · show QueueInv (runOps db.LogicSet.World f.World) (pushedB f.World)
      simpa using QueueInv_run f.World db.LogicSet.World [] hlw hfWF.1
    · show QueueInv (runOps db.LogicSet.UI f.UI) (pushedB f.UI)
      simpa using QueueInv_run f.UI db.LogicSet.UI [] hlu hfWF.2
    · show QueueInv db.RenderSet.World.Clear []
      exact QueueInv_clear _
    · show QueueInv db.RenderSet.UI.Clear []
      exact QueueInv_clear _
    · exact hrestWF

theorem execSpec_get {β : Type} :
    ∀ (fs : List (FrameOps β)) (bw bu : List β) (i : Nat),
      i + 1 < fs.length →
      (execSpec bw bu fs)[i + 1]?
        = (fs[i]?).map (fun f => some (pushedB f.World ++ pushedB f.UI)) := by
  intro fs
  induction fs with
  | nil => intro bw bu i h; simp at h
  | cons f rest ih =>
    intro bw bu i h
    cases i with
    | zero =>
      cases rest with
      | nil => simp at h
      | cons g rrest => simp [execSpec]
    | succ j =>
      have h2 : j + 1 < rest.length := by
        simp only [List.length_cons] at h
        omega
      have h3 := ih (pushedB f.World) (pushedB f.UI) j h2
      simpa [execSpec] using h3

/-! The `RenderQueue` singleton protocol. -/

theorem runRQ_from_constructed :
    ∀ (evs : List RQEvent), (∀ e ∈ evs, e = RQEvent.get) →
      List.foldl stepRQ { InstanceSet := true, AssertFailed := false } evs
        = { InstanceSet := true, AssertFailed := false } := by
  intro evs
  induction evs with
  | nil => intro _; rfl
  | cons e rest ih =>
    intro h
    have he : e = RQEvent.get := h e (List.mem_cons_self e rest)
    subst he
    show List.foldl stepRQ (stepRQ { InstanceSet := true, AssertFailed := false } RQEvent.get)
      rest = _
    exact ih (fun x hx => h x (List.mem_cons_of_mem _ hx))

/-! Claim theorems. -/

/-- C1: for every sequence of records appended via `Push` since the last
`Clear` (with out-of-band data reserved along the way), one call to
`CallAll` invokes the stored behaviour of each pushed record exactly once,
in push order, regardless of how many `Grow` reallocations occurred while
pushing (initial capacity and record sizes are arbitrary). -/
theorem C1_callAll_in_push_order {β : Type} (cap : Nat) (ops : List (QOp β))
    (hwf : QOpsWF ops) :
    (runOps (RenderCmdQueue.init cap) ops).CallAll = some (pushedB ops) := by
  have h := QueueInv_run ops (RenderCmdQueue.init cap) [] (QueueInv_init cap) hwf
  simpa using CallAll_of_inv _ _ h

theorem C1_witness :
    QOpsWF ([QOp.push 16 1, QOp.oobE 1 5, QOp.push 24 2, QOp.push 16 3] : List (QOp Nat)) ∧
    (runOps (RenderCmdQueue.init 0)
        [QOp.push 16 (1 : Nat), QOp.oobE 1 5, QOp.push 24 2, QOp.push 16 3]).CallAll
      = some [1, 2, 3] :=
  ⟨by decide, (C1_callAll_in_push_order 0 _ (by decide)).trans (by decide)⟩

/-- C7: after `Clear()` the queue behaves as freshly empty: replay after any
subsequent sequence of pushes invokes exactly the newly pushed records and
nothing stored before the clear. -/
theorem C7_clear_then_replay {β : Type} (q : RenderCmdQueue β) (ops : List (QOp β))
    (hwf : QOpsWF ops) :
    (runOps q.Clear ops).CallAll = some (pushedB ops) := by
  have h := QueueInv_run ops q.Clear [] (QueueInv_clear q) hwf
  simpa using CallAll_of_inv _ _ h

theorem C7_witness :
    QOpsWF ([QOp.push 16 (4 : Nat)]) ∧
    (runOps (RenderCmdQueue.init 0)
        [QOp.push 16 (1 : Nat), QOp.push 16 2, QOp.push 16 3]).CallAll = some [1, 2, 3] ∧
    (runOps (RenderCmdQueue.Clear (runOps (RenderCmdQueue.init 0)
        [QOp.push 16 (1 : Nat), QOp.push 16 2, QOp.push 16 3])) [QOp.push 16 4]).CallAll
      = some [4] :=
  ⟨by decide, by decide, (C7_clear_then_replay _ _ (by decide)).trans (by decide)⟩

/-- C5: given at least one record pushed since the last `Clear` (so `Last`
points at a record header inside the used region), `OobPushEmpty<T>(count)`
advances the used byte count by `count * sizeof(T)` rounded up to a multiple
of `sizeof(size_t)`, returns a `Ref` whose position equals the used count
before the call (growing first when the free capacity is insufficient), and
increases the declared size of the most recently pushed record by exactly
that aligned amount. -/
theorem C5_oobPushEmpty_spec {β : Type} (q : RenderCmdQueue β) (szT c lp s : Nat) (b : β)
    (hlast : q.Last = some lp)
    (hhdr : q.Data lp = Cell.header s b)
    (hlp : lp < q.UsedCapacity)
    (hbound : c * szT + 7 < 2 ^ 32) :
    (q.OobPushEmpty szT c).1.UsedCapacity
        = q.UsedCapacity + details.RoundUpToMultipleOf (c * szT) sizeofSizeT ∧
    (q.OobPushEmpty szT c).2 = q.UsedCapacity ∧
    (q.OobPushEmpty szT c).1.Data lp
        = Cell.header (s + details.RoundUpToMultipleOf (c * szT) sizeofSizeT) b := by
  have ha : RenderCmdQueue.alignedNeededCapacity szT c
      = details.RoundUpToMultipleOf (c * szT) sizeofSizeT := by
    show details.RoundUpToMultipleOfU32 (c * szT % 2 ^ 32) 8
      = details.RoundUpToMultipleOf (c * szT) 8
    rw [Nat.mod_eq_of_lt (show c * szT < 2 ^ 32 by omega)]
    exact RoundUpToMultipleOfU32_eq _ hbound
  refine ⟨?_, RenderCmdQueue.OobPushEmpty_snd q szT c, ?_⟩
  · rw [RenderCmdQueue.OobPushEmpty_used, ha]
  · rw [RenderCmdQueue.OobPushEmpty_data, hlast]
    show RenderCmdQueue.bumpSize (if q.GetFreeCapacity < RenderCmdQueue.alignedNeededCapacity szT c
        then q.Grow (RenderCmdQueue.alignedNeededCapacity szT c) else q).Data lp
        (RenderCmdQueue.alignedNeededCapacity szT c) lp
      = Cell.header (s + details.RoundUpToMultipleOf (c * szT) sizeofSizeT) b
    have he : (if q.GetFreeCapacity < RenderCmdQueue.alignedNeededCapacity szT c then
        q.Grow (RenderCmdQueue.alignedNeededCapacity szT c) else q).Data lp
        = Cell.header s b := by
      rw [RenderCmdQueue.ensure_data _ _ _ hlp]; exact hhdr
    rw [RenderCmdQueue.bumpSize_at _ _ _ _ _ he, ha]

theorem C5_witness :
    (runOps (RenderCmdQueue.init 0) [QOp.push 16 (5 : Nat)]).Last = some 0 ∧
    (runOps (RenderCmdQueue.init 0) [QOp.push 16 (5 : Nat)]).Data 0 = Cell.header 16 5 ∧
    ((runOps (RenderCmdQueue.init 0) [QOp.push 16 (5 : Nat)]).OobPushEmpty 1 3).1.Data 0
      = Cell.header (16 + details.RoundUpToMultipleOf (3 * 1) sizeofSizeT) 5 :=
  ⟨by decide, by decide,
    (C5_oobPushEmpty_spec (runOps (RenderCmdQueue.init 0) [QOp.push 16 (5 : Nat)]) 1 3 0 16 5
      (by decide) (by decide) (by decide) (by decide)).2.2⟩

/-- C6: a `Ref` obtained before a push that triggers a growth reallocation
still resolves, via `OobAt`, to the same content afterwards: the offset is
unchanged and the used bytes are copied verbatim into the new buffer (shown
both for `Grow` itself and for the growth-triggering `Push`). -/
theorem C6_ref_survives_growth {β : Type} (q : RenderCmdQueue β)
    (needed req len pos : Nat) (beh : β)
    (hgrow : q.GetFreeCapacity < needed)
    (hin : pos + len ≤ q.UsedCapacity) :
    (List.range len).map ((q.Grow req).OobAt pos) = (List.range len).map (q.OobAt pos) ∧
    (List.range len).map ((q.Push needed beh).OobAt pos)
      = (List.range len).map (q.OobAt pos) := by
  constructor
  · apply List.map_congr_left
    intro k hk
    have hk2 : k < len := List.mem_range.mp hk
    show (q.Grow req).Data (pos + k) = q.Data (pos + k)
    exact RenderCmdQueue.grow_data_lt q req _ (by omega)
  · apply List.map_congr_left
    intro k hk
    have hk2 : k < len := List.mem_range.mp hk
    show (q.Push needed beh).Data (pos + k) = q.Data (pos + k)
    exact RenderCmdQueue.Push_data_lt q needed _ beh (by omega)

theorem C6_witness :
    (runOps (RenderCmdQueue.init 0) [QOp.push 16 (37 : Nat)]).GetFreeCapacity < 24 ∧
    (List.range 16).map
        (((runOps (RenderCmdQueue.init 0) [QOp.push 16 (37 : Nat)]).Push 24 99).OobAt 0)
      = (List.range 16).map ((runOps (RenderCmdQueue.init 0) [QOp.push 16 (37 : Nat)]).OobAt 0) :=
  ⟨by decide,
    (C6_ref_survives_growth (runOps (RenderCmdQueue.init 0) [QOp.push 16 (37 : Nat)]) 24 24 16 0 99
      (by decide) (by decide)).2⟩

/-- C4: for a record C pushed and an out-of-band region reserved and filled
immediately after it, after any number of subsequent well-formed operations
the region is still retrievable via its `Ref` through `OobAt`, and `CallAll`
skips the region's bytes as part of record C's extended size, invoking
exactly the pushed behaviours in order and never the region. -/
theorem C4_oob_region_stable {β : Type} (cap : Nat) (ops0 ops1 : List (QOp β))
    (neededC : Nat) (behC : β) (bytes : List Nat)
    (h0 : QOpsWF ops0) (h1 : QOpsWF ops1) (hC : 0 < neededC)
    (hlen : bytes.length + 7 < 2 ^ 32) :
    (List.range bytes.length).map
        ((runOps (RenderCmdQueue.init cap)
            (ops0 ++ QOp.push neededC behC :: QOp.oobBytes bytes :: ops1)).OobAt
          ((runOps (RenderCmdQueue.init cap) (ops0 ++ [QOp.push neededC behC])).UsedCapacity))
      = bytes.map Cell.byte ∧
    (runOps (RenderCmdQueue.init cap)
        (ops0 ++ QOp.push neededC behC :: QOp.oobBytes bytes :: ops1)).CallAll
      = some (pushedB ops0 ++ behC :: pushedB ops1) := by
  have hq1 : runOps (RenderCmdQueue.init cap) (ops0 ++ [QOp.push neededC behC])
      = (runOps (RenderCmdQueue.init cap) ops0).Push neededC behC := by
    rw [runOps_append]; rfl
  have hq2 : runOps (RenderCmdQueue.init cap)
        (ops0 ++ QOp.push neededC behC :: QOp.oobBytes bytes :: ops1)
      = runOps (((runOps (RenderCmdQueue.init cap) ops0).Push neededC behC).OobPush bytes).1
          ops1 := by
    rw [runOps_append]; rfl
  constructor
  · rw [hq1, hq2, ← range_map_getD (β := β) bytes]
    apply List.map_congr_left
    intro k hk
    have hk2 : k < bytes.length := List.mem_range.mp hk
    have ha := alignedNeededCapacity_ge bytes.length hlen
    have hused1 : ((runOps (RenderCmdQueue.init cap) ops0).Push neededC behC).UsedCapacity
        = (runOps (RenderCmdQueue.init cap) ops0).UsedCapacity + neededC :=
      RenderCmdQueue.Push_used _ neededC behC
    show (runOps (((runOps (RenderCmdQueue.init cap) ops0).Push neededC behC).OobPush bytes).1
        ops1).Data
        (((runOps (RenderCmdQueue.init cap) ops0).Push neededC behC).UsedCapacity + k)
      = Cell.byte (bytes.getD k 0)
    rw [runOps_low ops1 _ _ ?hi ?hl]
    case hi =>
      rw [RenderCmdQueue.OobPush_used]
      omega
    case hl =>
      intro lp hlp
      rw [RenderCmdQueue.OobPush_last, RenderCmdQueue.Push_last] at hlp
      injection hlp with h2
      omega
    rw [RenderCmdQueue.OobPush_data]
    exact RenderCmdQueue.writeBytes_in _ _ _ _ hk2
  · have hwf : QOpsWF (ops0 ++ QOp.push neededC behC :: QOp.oobBytes bytes :: ops1) := by
      intro op hop
      rcases List.mem_append.mp hop with h | h
      · exact h0 op h
      · rcases List.mem_cons.mp h with rfl | h
        · exact hC
        · rcases List.mem_cons.mp h with rfl | h
          · trivial
          · exact h1 op h
    have hinv := QueueInv_run _ (RenderCmdQueue.init cap) [] (QueueInv_init cap) hwf
    have hc := CallAll_of_inv _ _ hinv
    rw [hc, List.nil_append, pushedB_append]
    congr 1

theorem C4_witness :
    (List.range ([72, 105] : List Nat).length).map
        ((runOps (RenderCmdQueue.init 0)
            ([QOp.push 16 (10 : Nat)] ++ QOp.push 16 11 :: QOp.oobBytes [72, 105]
              :: [QOp.push 16 12])).OobAt
          ((runOps (RenderCmdQueue.init 0)
            ([QOp.push 16 (10 : Nat)] ++ [QOp.push 16 11])).UsedCapacity))
      = ([72, 105] : List Nat).map Cell.byte ∧
    (runOps (RenderCmdQueue.init 0)
        ([QOp.push 16 (10 : Nat)] ++ QOp.push 16 11 :: QOp.oobBytes [72, 105]
          :: [QOp.push 16 12])).CallAll
      = some (pushedB [QOp.push 16 (10 : Nat)] ++ 11 :: pushedB [QOp.push 16 (12 : Nat)]) :=
  C4_oob_region_stable 0 [QOp.push 16 10] [QOp.push 16 12] 16 11 [72, 105]
    (by decide) (by decide) (by decide) (by decide)

/-- C10: `OobPushEmpty` on a queue holding no records (fresh after `Clear`)
still allocates the region and returns the `Ref` of the old write position
without modifying any record bookkeeping; the first record pushed afterwards
becomes the traversal start, with `First` pointing past the leading
out-of-band bytes, so `CallAll` never reads the leading region as a record —
the pattern `DrawText` relies on by pushing its string before the command
record. -/
theorem C10_leading_oob {β : Type} (q : RenderCmdQueue β) (szT c needed : Nat) (beh : β)
    (ops : List (QOp β)) (hwf : QOpsWF ops) (hn : 0 < needed) :
    (q.Clear.OobPushEmpty szT c).2 = 0 ∧
    (q.Clear.OobPushEmpty szT c).1.NumElements = 0 ∧
    (q.Clear.OobPushEmpty szT c).1.First = none ∧
    (q.Clear.OobPushEmpty szT c).1.Last = none ∧
    ((q.Clear.OobPushEmpty szT c).1.Push needed beh).First
      = some (RenderCmdQueue.alignedNeededCapacity szT c) ∧
    (runOps q.Clear (QOp.oobE szT c :: QOp.push needed beh :: ops)).CallAll
      = some (beh :: pushedB ops) := by
  refine ⟨?_, ?_, ?_, ?_, ?_, ?_⟩
  · rw [RenderCmdQueue.OobPushEmpty_snd]; rfl
  · rw [RenderCmdQueue.OobPushEmpty_numel]; rfl
  · rw [RenderCmdQueue.OobPushEmpty_first]; rfl
  · rw [RenderCmdQueue.OobPushEmpty_last]; rfl
  · rw [RenderCmdQueue.Push_first, RenderCmdQueue.OobPushEmpty_first,
      RenderCmdQueue.OobPushEmpty_used]
    show some (0 + RenderCmdQueue.alignedNeededCapacity szT c)
      = some (RenderCmdQueue.alignedNeededCapacity szT c)
    rw [Nat.zero_add]
  · have hwf2 : QOpsWF (QOp.oobE szT c :: QOp.push needed beh :: ops) := by
      intro op hop
      rcases List.mem_cons.mp hop with rfl | hop
      · trivial
      · rcases List.mem_cons.mp hop with rfl | hop
        · exact hn
        · exact hwf op hop
    have hinv := QueueInv_run _ q.Clear [] (QueueInv_clear q) hwf2
    have hc := CallAll_of_inv _ _ hinv
    rw [hc, List.nil_append]
    congr 1

theorem C10_witness :
    QOpsWF ([QOp.push 16 (8 : Nat)]) ∧
    (((RenderCmdQueue.init 0 : RenderCmdQueue Nat).Clear.OobPushEmpty 1 5).1.Push 16 7).First
      = some (RenderCmdQueue.alignedNeededCapacity 1 5) ∧
    (runOps (RenderCmdQueue.init 0 : RenderCmdQueue Nat).Clear
        (QOp.oobE 1 5 :: QOp.push 16 7 :: [QOp.push 16 8])).CallAll
      = some (7 :: pushedB [QOp.push 16 (8 : Nat)]) :=
  ⟨by decide,
    (C10_leading_oob (RenderCmdQueue.init 0) 1 5 16 7 [QOp.push 16 8]
      (by decide) (by decide)).2.2.2.2.1,
    (C10_leading_oob (RenderCmdQueue.init 0) 1 5 16 7 [QOp.push 16 8]
      (by decide) (by decide)).2.2.2.2.2⟩

/-- C2: under the two-barrier frame protocol, the batch `Render` executes out
of the consumer-role set in frame `i + 1` (after the coordinator's
`SwapQueues` at the boundary) is exactly what was pushed into the
producer-role set during frame `i`, and frame 0 executes nothing — so no
command is executed during the frame in which it was pushed. -/
theorem C2_frame_handoff {β : Type} (fs : List (FrameOps β)) (i : Nat)
    (hwf : FramesWF fs) (hi : i + 1 < fs.length) :
    ((runFrames (initRenderQueue (β := β)) fs).2)[i + 1]?
      = (fs[i]?).map (fun f => some (pushedB f.World ++ pushedB f.UI)) ∧
    ((runFrames (initRenderQueue (β := β)) fs).2)[0]? = some (some []) := by
  have hrun : (runFrames (initRenderQueue (β := β)) fs).2 = execSpec [] [] fs :=
    runFrames_exec fs initRenderQueue [] [] (QueueInv_init 0) (QueueInv_init 0)
      (QueueInv_init 0) (QueueInv_init 0) hwf
  rw [hrun]
  constructor
  · exact execSpec_get fs [] [] i hi
  · cases fs with
    | nil => simp at hi
    | cons f rest => simp [execSpec]

theorem C2_witness :
    FramesWF ([⟨[QOp.push 16 7], []⟩, ⟨[], []⟩] : List (FrameOps Nat)) ∧
    ((runFrames (initRenderQueue (β := Nat))
        [⟨[QOp.push 16 7], []⟩, ⟨[], []⟩]).2)[0 + 1]? = some (some [7]) ∧
    ((runFrames (initRenderQueue (β := Nat))
        [⟨[QOp.push 16 7], []⟩, ⟨[], []⟩]).2)[0]? = some (some []) :=
  ⟨by decide,
    ((C2_frame_handoff [⟨[QOp.push 16 7], []⟩, ⟨[], []⟩] 0 (by decide) (by decide)).1).trans
      (by decide),
    (C2_frame_handoff [⟨[QOp.push 16 7], []⟩, ⟨[], []⟩] 0 (by decide) (by decide)).2⟩

/-- C9 counterexample: the claim says that when at most one `RenderQueue` is
constructed before `Get` is called, neither assertion fires; but in the run
consisting of a single `Get` after zero constructions (zero is at most one)
the `assert(Instance)` inside `Get` does fire. -/
theorem C9_counterexample :
    countConstruct [RQEvent.get] ≤ 1 ∧ (runRQ [RQEvent.get]).AssertFailed = true := by
  decide

/-- C9 (amended): constructing a second `RenderQueue` while one already
exists triggers the `assert(!Instance)` fail-fast; `Get` run with no
instance triggers `assert(Instance)`; and when exactly one `RenderQueue` is
constructed before any `Get` and no second construction ever occurs,
neither assertion fires. -/
theorem C9_singleton_assertions (s : RenderQueueGlobal) (evs : List RQEvent)
    (hs : s.InstanceSet = true) (hevs : ∀ e ∈ evs, e = RQEvent.get) :
    (stepRQ s RQEvent.construct).AssertFailed = true ∧
    (stepRQ { InstanceSet := false, AssertFailed := false } RQEvent.get).AssertFailed = true ∧
    (runRQ (RQEvent.construct :: evs)).AssertFailed = false := by
  refine ⟨?_, rfl, ?_⟩
  · show (s.AssertFailed || s.InstanceSet) = true
    rw [hs]
    exact Bool.or_true _
  · show (List.foldl stepRQ { InstanceSet := true, AssertFailed := false } evs).AssertFailed
      = false
    rw [runRQ_from_constructed evs hevs]

theorem C9_witness :
    ({ InstanceSet := true, AssertFailed := false } : RenderQueueGlobal).InstanceSet = true ∧
    (stepRQ { InstanceSet := true, AssertFailed := false } RQEvent.construct).AssertFailed
      = true ∧
    (runRQ (RQEvent.construct :: [RQEvent.get, RQEvent.get])).AssertFailed = false :=
  ⟨by decide,
    (C9_singleton_assertions { InstanceSet := true, AssertFailed := false }
      [RQEvent.get, RQEvent.get] (by decide) (by decide)).1,
    (C9_singleton_assertions { InstanceSet := true, AssertFailed := false }
      [RQEvent.get, RQEvent.get] (by decide) (by decide)).2.2⟩

set_option maxRecDepth 20000 in
/-- C3: the claim demands that every text payload stored via `PushString` be
retrievable exactly, through the returned `Ref`, as the original bytes plus
the null terminator.  The `static_cast<uint8_t>(str.size() + 1)` in
`PushString` truncates the reservation count modulo 256, so for a 300-byte
text pushed on an empty queue only `(301 mod 256 = 45, aligned to 48)` bytes
are reserved and counted as used while 301 bytes are written: the `memcpy`
runs past the reservation and past the 64-byte grown buffer, and the
immediately following `Push` — exactly what `DrawText` does — plants a
record header at offset 48, overwriting byte 48 of the text, so `OobAt` no
longer yields the original text. -/
theorem C3_pushString_truncates :
    (PushString (RenderCmdQueue.init 0 : RenderCmdQueue Nat)
        (List.replicate 300 65)).1.UsedCapacity = 48 ∧
    (PushString (RenderCmdQueue.init 0 : RenderCmdQueue Nat)
        (List.replicate 300 65)).1.Capacity = 64 ∧
    (PushString (RenderCmdQueue.init 0 : RenderCmdQueue Nat)
        (List.replicate 300 65)).2 = 0 ∧
    (PushString (RenderCmdQueue.init 0 : RenderCmdQueue Nat)
        (List.replicate 300 65)).1.OobAt 0 48 = Cell.byte 65 ∧
    ((PushString (RenderCmdQueue.init 0 : RenderCmdQueue Nat)
        (List.replicate 300 65)).1.Push 16 0).OobAt 0 48 = Cell.header 16 0 := by
  decide
